import Mathlib

/-!
Verification of the finding-normalization and test-evaluation logic of the
Automated Reasoning guardrail demo repository.

The embedded code comes from:
* `utils/automated_reasoning_common.py`: the `TestResult` enum,
  `extract_automated_reasoning_results` and `_parse_finding`;
* `automated-reasoning-checks-demo-static.py`: `TestCase.__post_init__`
  and `AutomatedReasoningTester._evaluate_test_result`.

Python dictionaries are modelled as association lists with unique keys
(`jget` is Python key lookup; Python's `dict` preserves insertion order, so
`values()` is the ordered list of second components).  Python exceptions are
modelled with `Except String`: every place where the Python code would raise
(`TypeError` on iterating or concatenating a non-list, `AttributeError` on
`.get` of a non-dict, `TypeError` on `in` applied to a non-container) becomes
an `.error`.  A few CPython corner cases where a string or dict happens to be
iterable (e.g. `"x" in "some string"` doing a substring test) are modelled as
errors as well; no claim exercises those inputs.
-/

/-- A JSON-like dynamic value, the type of the `Dict[str, Any]` payloads the
Python code manipulates.  Objects are ordered association lists, matching
Python's insertion-ordered `dict`. -/
inductive JValue where
  | null : JValue
  | bool : Bool → JValue
  | str : String → JValue
  | num : Int → JValue
  | arr : List JValue → JValue
  | obj : List (String × JValue) → JValue
deriving Repr

/-- Python `d[k]` / `k in d` lookup on an association-list dictionary
(keys are unique in a Python dict, so first match suffices). -/
def jget (kvs : List (String × JValue)) (k : String) : Option JValue :=
  match kvs with
  | [] => none
  | (k2, v) :: rest => if k2 = k then some v else jget rest k

/-- Python `k in d`. -/
def hasKey (kvs : List (String × JValue)) (k : String) : Bool :=
  (jget kvs k).isSome

/-- The `TestResult` enum of `utils/automated_reasoning_common.py`. -/
inductive TestResult where
  | VALID
  | INVALID
  | SATISFIABLE
deriving Repr, DecidableEq

/-- The `.value` attribute of each `TestResult` member. -/
def TestResult.value : TestResult → String
  | .VALID => "VALID"
  | .INVALID => "INVALID"
  | .SATISFIABLE => "SATISFIABLE"

/-- The Python enum constructor `TestResult(s)`: succeeds on the three member
values, raises `ValueError` otherwise. -/
def TestResult.fromString (s : String) : Except String TestResult :=
  if s = "VALID" then .ok .VALID
  else if s = "INVALID" then .ok .INVALID
  else if s = "SATISFIABLE" then .ok .SATISFIABLE
  else .error (s ++ " is not a valid TestResult")

/-- The `TestCase` dataclass of `automated-reasoning-checks-demo-static.py`. -/
structure TestCase where
  expected_result : TestResult
  question : Option String
  answer : Option String
deriving Repr, DecidableEq

/-- Constructing a `TestCase` from a string expected result: `__post_init__`
calls `TestResult(self.expected_result)` and lets any `ValueError` propagate
unchanged. -/
def TestCase.ofString (s : String) (q a : Option String) : Except String TestCase :=
  match TestResult.fromString s with
  | .ok r => .ok ⟨r, q, a⟩
  | .error e => .error e

/-- `AutomatedReasoningTester._evaluate_test_result` of
`automated-reasoning-checks-demo-static.py`.  `actual_result` may be `None`
(modelled as `none`); `if not actual_result` is true exactly for `None` and
the empty string. -/
def evaluate_test_result (actual_result : Option String) (expected_result : TestResult) : Bool :=
  match actual_result with
  | none => false
  | some s => if s = "" then false else s = expected_result.value

/-- The normalized finding dictionary `_parse_finding` returns:
`result` (a string or `None`), `finding` (the raw payload), `rules`. -/
structure ParsedFinding where
  result : Option String
  finding : List (String × JValue)
  rules : List JValue
deriving Repr

/-- The result-classification chain at the top of `_parse_finding`:
presence tests on the four keys, in source order. -/
def classifyFinding (f : List (String × JValue)) : Option String :=
  if hasKey f "satisfiable" then some "SATISFIABLE"
  else if hasKey f "valid" then some "VALID"
  else if hasKey f "invalid" then some "INVALID"
  else if hasKey f "translationAmbiguous" then some "AMBIGUOUS"
  else none

/-- `finding.get(k, [])`, immediately used as an operand of list `+`:
an absent key yields `[]`, a list value yields itself, and any non-list value
makes the `+` raise `TypeError`. -/
def getRuleList (f : List (String × JValue)) (k : String) : Except String (List JValue) :=
  match jget f k with
  | none => .ok []
  | some (.arr xs) => .ok xs
  | some _ => .error "can only concatenate list"

/-- `_parse_finding` of `utils/automated_reasoning_common.py`. -/
def parse_finding (f : List (String × JValue)) : Except String ParsedFinding := do
  let sup ← getRuleList f "supportingRules"
  let con ← getRuleList f "contradictingRules"
  .ok { result := classifyFinding f, finding := f, rules := sup ++ con }

/-- The inner `for finding in automated_reasoning_policy.get("findings", [])`
loop: each element must be a dict (a non-dict finding makes `_parse_finding`
raise), and the parsed findings are appended in order. -/
def parseFindings : List JValue → Except String (List ParsedFinding)
  | [] => .ok []
  | .obj kvs :: rest => do
      let p ← parse_finding kvs
      let ps ← parseFindings rest
      .ok (p :: ps)
  | _ :: _ => .error "finding is not a dict"

/-- Dispatch on the value of `automated_reasoning_policy.get("findings", [])`:
absent defaults to the empty list, a list is iterated, anything else raises. -/
def processFindingsValue : JValue → Except String (List ParsedFinding)
  | .arr fs => parseFindings fs
  | _ => .error "findings value is not iterable"

/-- Dispatch on `assessment["automatedReasoningPolicy"]`: `.get` requires a
dict, whose `findings` key defaults to the empty list. -/
def processPolicyValue : JValue → Except String (List ParsedFinding)
  | .obj arp =>
      match jget arp "findings" with
      | none => .ok []
      | some fv => processFindingsValue fv
  | _ => .error "automatedReasoningPolicy value has no get attribute"

/-- The per-assessment body: skip assessments without the
`automatedReasoningPolicy` key, otherwise process its findings. -/
def processAssessment : JValue → Except String (List ParsedFinding)
  | .obj kvs =>
      match jget kvs "automatedReasoningPolicy" with
      | none => .ok []
      | some arp => processPolicyValue arp
  | _ => .error "assessment is not a dict"

/-- `for assessment in ...` over an assessments list, accumulating the parsed
findings of each assessment in order. -/
def processAssessments : List JValue → Except String (List ParsedFinding)
  | [] => .ok []
  | a :: rest => do
      let ps ← processAssessment a
      let rs ← processAssessments rest
      .ok (ps ++ rs)

/-- Dispatch on the value of `response.get("assessments", [])` (the key is
known to be present): it must be a list to iterate. -/
def processAssessmentsValue : JValue → Except String (List ParsedFinding)
  | .arr as => processAssessments as
  | _ => .error "assessments value is not iterable"

/-- `for assessments_list in guardrail_trace["outputAssessments"].values()`:
iterate the dict values in insertion order; each value must be a list of
assessments. -/
def processOutputAssessments : List (String × JValue) → Except String (List ParsedFinding)
  | [] => .ok []
  | (_, .arr as) :: rest => do
      let ps ← processAssessments as
      let rs ← processOutputAssessments rest
      .ok (ps ++ rs)
  | (_, _) :: _ => .error "assessments list is not iterable"

/-- Dispatch on `guardrail_trace["outputAssessments"]`: `.values()` requires
a dict. -/
def processOutputAssessmentsValue : JValue → Except String (List ParsedFinding)
  | .obj oa => processOutputAssessments oa
  | _ => .error "outputAssessments value has no values attribute"

/-- Dispatch on `response["trace"]["guardrail"]`: the subsequent
`"outputAssessments" in guardrail_trace` requires a dict; an absent
`outputAssessments` key falls through to returning the accumulated (empty)
findings. -/
def processGuardrailValue : JValue → Except String (List ParsedFinding)
  | .obj g =>
      match jget g "outputAssessments" with
      | none => .ok []
      | some oa => processOutputAssessmentsValue oa
  | _ => .error "guardrail value does not support key membership"

/-- Dispatch on `response["trace"]`: `"guardrail" in response["trace"]`
requires a dict; if `guardrail` is absent the `elif` condition is false and
the function returns the accumulated (empty) findings. -/
def processTraceValue : JValue → Except String (List ParsedFinding)
  | .obj tr =>
      match jget tr "guardrail" with
      | none => .ok []
      | some g => processGuardrailValue g
  | _ => .error "trace value does not support key membership"

/-- The `elif` branch of `extract_automated_reasoning_results`: consulted only
when the `assessments` key is absent. -/
def extractTrace (response : List (String × JValue)) : Except String (List ParsedFinding) :=
  match jget response "trace" with
  | none => .ok []
  | some t => processTraceValue t

/-- `extract_automated_reasoning_results` of
`utils/automated_reasoning_common.py`. -/
def extract_automated_reasoning_results (response : List (String × JValue)) :
    Except String (List ParsedFinding) :=
  match jget response "assessments" with
  | some v => processAssessmentsValue v
  | none => extractTrace response

/-! ### Helper lemmas -/

lemma getRuleList_ok_of_arr {f : List (String × JValue)} {k : String} {xs : List JValue}
    (h : jget f k = some (.arr xs)) : getRuleList f k = .ok xs := by
  simp [getRuleList, h]

lemma getRuleList_ok_of_none {f : List (String × JValue)} {k : String}
    (h : jget f k = none) : getRuleList f k = .ok [] := by
  simp [getRuleList, h]

lemma parse_finding_ok_of {f : List (String × JValue)} {sup con : List JValue}
    (hs : getRuleList f "supportingRules" = .ok sup)
    (hc : getRuleList f "contradictingRules" = .ok con) :
    parse_finding f = .ok ⟨classifyFinding f, f, sup ++ con⟩ := by
  simp [parse_finding, hs, hc, Bind.bind, Except.bind]

lemma parse_finding_ok_elim {f : List (String × JValue)} {pf : ParsedFinding}
    (h : parse_finding f = .ok pf) :
    ∃ sup con, getRuleList f "supportingRules" = .ok sup ∧
      getRuleList f "contradictingRules" = .ok con ∧
      pf = ⟨classifyFinding f, f, sup ++ con⟩ := by
  unfold parse_finding at h
  cases hs : getRuleList f "supportingRules" with
  | error e => rw [hs] at h; simp [Bind.bind, Except.bind] at h
  | ok sup =>
    rw [hs] at h
    cases hc : getRuleList f "contradictingRules" with
    | error e => rw [hc] at h; simp [Bind.bind, Except.bind] at h
    | ok con =>
      rw [hc] at h
      simp only [Bind.bind, Except.bind, Except.ok.injEq] at h
      exact ⟨sup, con, rfl, rfl, h.symm⟩

lemma parse_finding_result_eq {f : List (String × JValue)} {pf : ParsedFinding}
    (h : parse_finding f = .ok pf) : pf.result = classifyFinding f := by
  obtain ⟨sup, con, -, -, hpf⟩ := parse_finding_ok_elim h
  rw [hpf]

lemma except_bind_ok_elim {α β : Type} {x : Except String α} {f : α → Except String β} {b : β}
    (h : (x >>= f) = .ok b) : ∃ a, x = .ok a ∧ f a = .ok b := by
  cases x with
  | error e => simp [Bind.bind, Except.bind] at h
  | ok a => exact ⟨a, rfl, by simpa [Bind.bind, Except.bind] using h⟩

/-! ### Claims C1, C2, C4, C7, C9 -/

/-- Claim C1: the classified result of a parsed finding is determined solely by
key presence, in the fixed priority order `satisfiable`, `valid`, `invalid`,
`translationAmbiguous`; if none of the four keys is present the result is
absent.  In particular a payload with both `satisfiable` and `valid` present
(whatever their values) classifies as `SATISFIABLE`. -/
theorem parse_finding_result_by_key_presence (f : List (String × JValue)) (pf : ParsedFinding)
    (h : parse_finding f = .ok pf) :
    ((jget f "satisfiable").isSome = true → pf.result = some "SATISFIABLE") ∧
    (jget f "satisfiable" = none → (jget f "valid").isSome = true →
      pf.result = some "VALID") ∧
    (jget f "satisfiable" = none → jget f "valid" = none →
      (jget f "invalid").isSome = true → pf.result = some "INVALID") ∧
    (jget f "satisfiable" = none → jget f "valid" = none → jget f "invalid" = none →
      (jget f "translationAmbiguous").isSome = true → pf.result = some "AMBIGUOUS") ∧
    (jget f "satisfiable" = none → jget f "valid" = none → jget f "invalid" = none →
      jget f "translationAmbiguous" = none → pf.result = none) := by
  have hr := parse_finding_result_eq h
  refine ⟨?_, ?_, ?_, ?_, ?_⟩
  · intro h1; rw [hr]; simp [classifyFinding, hasKey, h1]
  · intro h1 h2; rw [hr]; simp [classifyFinding, hasKey, h1, h2]
  · intro h1 h2 h3; rw [hr]; simp [classifyFinding, hasKey, h1, h2, h3]
  · intro h1 h2 h3 h4; rw [hr]; simp [classifyFinding, hasKey, h1, h2, h3, h4]
  · intro h1 h2 h3 h4; rw [hr]; simp [classifyFinding, hasKey, h1, h2, h3, h4]

/-- Witness for C1: a payload holding both `satisfiable` and `valid`, each with
value `false`, classifies as `SATISFIABLE`. -/
theorem parse_finding_result_by_key_presence_witness :
    (jget [("satisfiable", JValue.bool false), ("valid", JValue.bool false)]
        "satisfiable").isSome = true ∧
    ParsedFinding.result
      ⟨some "SATISFIABLE",
        [("satisfiable", JValue.bool false), ("valid", JValue.bool false)], []⟩ =
      some "SATISFIABLE" :=
  ⟨rfl, (parse_finding_result_by_key_presence
      [("satisfiable", JValue.bool false), ("valid", JValue.bool false)] _ rfl).1 rfl⟩

/-- Claim C2: evaluation returns false when the actual result is absent or
empty, and otherwise returns exact case-sensitive equality with the string
value of the expected result. -/
theorem evaluate_test_result_spec (e : TestResult) :
    evaluate_test_result none e = false ∧
    evaluate_test_result (some "") e = false ∧
    (∀ s : String, s ≠ "" →
      (evaluate_test_result (some s) e = true ↔ s = e.value)) ∧
    evaluate_test_result (some "VALID") TestResult.VALID = true ∧
    evaluate_test_result (some "") TestResult.INVALID = false ∧
    evaluate_test_result (some "valid") TestResult.VALID = false := by
  refine ⟨rfl, by simp [evaluate_test_result], ?_, by decide, by decide, by decide⟩
  intro s hs
  simp [evaluate_test_result, hs]

/-- Witness for C2: at the concrete non-empty string "VALID" the evaluation
against expected `VALID` reduces to string equality, which holds. -/
theorem evaluate_test_result_spec_witness :
    ("VALID" : String) ≠ "" ∧
    (evaluate_test_result (some "VALID") TestResult.VALID = true ↔
      "VALID" = TestResult.VALID.value) :=
  ⟨by decide, (evaluate_test_result_spec TestResult.VALID).2.2.1 "VALID" (by decide)⟩

/-- Claim C4: the `rules` field of a parsed finding is the concatenation of
the payload's `supportingRules` followed by its `contradictingRules`, an
absent list being treated as empty. -/
theorem parse_finding_rules_concat (f : List (String × JValue)) (sup con : List JValue)
    (hs : jget f "supportingRules" = some (.arr sup) ∨
      (jget f "supportingRules" = none ∧ sup = []))
    (hc : jget f "contradictingRules" = some (.arr con) ∨
      (jget f "contradictingRules" = none ∧ con = [])) :
    ∃ pf, parse_finding f = .ok pf ∧ pf.rules = sup ++ con := by
  have hs' : getRuleList f "supportingRules" = .ok sup := by
    rcases hs with h | ⟨h, h2⟩
    · exact getRuleList_ok_of_arr h
    · rw [h2]; exact getRuleList_ok_of_none h
  have hc' : getRuleList f "contradictingRules" = .ok con := by
    rcases hc with h | ⟨h, h2⟩
    · exact getRuleList_ok_of_arr h
    · rw [h2]; exact getRuleList_ok_of_none h
  exact ⟨⟨classifyFinding f, f, sup ++ con⟩, parse_finding_ok_of hs' hc', rfl⟩

/-- Witness for C4: `supportingRules = [A, B]` and `contradictingRules = [C]`
yield `rules = [A, B, C]`. -/
theorem parse_finding_rules_concat_witness :
    ∃ pf, parse_finding
        [("supportingRules", JValue.arr [JValue.str "A", JValue.str "B"]),
         ("contradictingRules", JValue.arr [JValue.str "C"])] = .ok pf ∧
      pf.rules = [JValue.str "A", JValue.str "B", JValue.str "C"] :=
  parse_finding_rules_concat
    [("supportingRules", JValue.arr [JValue.str "A", JValue.str "B"]),
     ("contradictingRules", JValue.arr [JValue.str "C"])]
    [JValue.str "A", JValue.str "B"] [JValue.str "C"] (Or.inl rfl) (Or.inl rfl)

/-- Claim C7: converting an expected-result string succeeds exactly for
"VALID", "INVALID" and "SATISFIABLE"; for any other string the `TestCase`
construction surfaces the `TestResult` validation error unchanged. -/
theorem testcase_ofString_taxonomy (s : String) (q a : Option String) :
    ((∃ tc, TestCase.ofString s q a = .ok tc) ↔
      (s = "VALID" ∨ s = "INVALID" ∨ s = "SATISFIABLE")) ∧
    (∀ e, TestResult.fromString s = .error e → TestCase.ofString s q a = .error e) := by
  unfold TestCase.ofString TestResult.fromString
  by_cases h1 : s = "VALID" <;> by_cases h2 : s = "INVALID" <;>
    by_cases h3 : s = "SATISFIABLE" <;> simp [h1, h2, h3]

/-- Witness for C7: an unrecognized string surfaces the validation error
unchanged, and "VALID" is accepted. -/
theorem testcase_ofString_taxonomy_witness :
    TestCase.ofString "AMBIGUOUS" none none =
      .error "AMBIGUOUS is not a valid TestResult" ∧
    (∃ tc, TestCase.ofString "VALID" none none = .ok tc) :=
  ⟨(testcase_ofString_taxonomy "AMBIGUOUS" none none).2 _ rfl,
   ((testcase_ofString_taxonomy "VALID" none none).1).mpr (Or.inl rfl)⟩

/-- Claim C9: an actual result of "AMBIGUOUS" never passes, whatever the
expected result, since it is not the string value of any `TestResult`. -/
theorem evaluate_ambiguous_never_passes (e : TestResult) :
    evaluate_test_result (some "AMBIGUOUS") e = false := by
  cases e <;> decide

/-! ### Claim C5 -/

lemma extract_of_assessments_some {r : List (String × JValue)} {v : JValue}
    (h : jget r "assessments" = some v) :
    extract_automated_reasoning_results r = processAssessmentsValue v := by
  unfold extract_automated_reasoning_results
  rw [h]

lemma extract_of_assessments_none {r : List (String × JValue)}
    (h : jget r "assessments" = none) :
    extract_automated_reasoning_results r = extractTrace r := by
  unfold extract_automated_reasoning_results
  rw [h]

/-- Claim C5: the trace branch is consulted only when the `assessments` key is
absent; when that key is present the output depends only on its value, so any
trace structure in the response contributes nothing. -/
theorem extract_branch_priority (r1 r2 : List (String × JValue))
    (h : jget r1 "assessments" = jget r2 "assessments")
    (hs : (jget r1 "assessments").isSome = true) :
    extract_automated_reasoning_results r1 = extract_automated_reasoning_results r2 := by
  obtain ⟨v, hv⟩ := Option.isSome_iff_exists.mp hs
  rw [extract_of_assessments_some hv, extract_of_assessments_some (h.symm.trans hv)]

/-- Witness for C5: a response carrying both an `assessments` key and trace
garbage extracts exactly as the response with the trace removed. -/
theorem extract_branch_priority_witness :
    jget [("assessments", JValue.arr []), ("trace", JValue.str "garbage")]
        "assessments" =
      jget [("assessments", JValue.arr [])] "assessments" ∧
    extract_automated_reasoning_results
        [("assessments", JValue.arr []), ("trace", JValue.str "garbage")] =
      extract_automated_reasoning_results [("assessments", JValue.arr [])] :=
  ⟨rfl, extract_branch_priority
    [("assessments", JValue.arr []), ("trace", JValue.str "garbage")]
    [("assessments", JValue.arr [])] rfl rfl⟩

/-! ### Claim C3 (corrected) -/

/-- Counterexample to C3 as stated: a trace-shape response whose single
finding contains `translationAmbiguous` but also the higher-priority key
`satisfiable` yields a single finding whose result is `SATISFIABLE`, not
`AMBIGUOUS`. -/
theorem extract_trace_ambiguous_counterexample :
    (jget [("satisfiable", JValue.null), ("translationAmbiguous", JValue.null)]
        "translationAmbiguous").isSome = true ∧
    extract_automated_reasoning_results
        [("trace", JValue.obj [("guardrail", JValue.obj [("outputAssessments",
          JValue.obj [("k", JValue.arr [JValue.obj [("automatedReasoningPolicy",
            JValue.obj [("findings", JValue.arr [JValue.obj
              [("satisfiable", JValue.null),
               ("translationAmbiguous", JValue.null)]])])]])])])])] =
      .ok [⟨some "SATISFIABLE",
        [("satisfiable", JValue.null), ("translationAmbiguous", JValue.null)], []⟩] ∧
    (some "SATISFIABLE" : Option String) ≠ some "AMBIGUOUS" :=
  ⟨rfl, rfl, by decide⟩

/-- Specification-side description, following the spec's words: the ordered
list of finding payloads a `findings` value exposes, absent meaning none. -/
def specFindingsValue : Option JValue → List JValue
  | some (.arr fs) => fs
  | _ => []

/-- Specification-side description, following the spec's words: the findings
of a reasoning-policy sub-object. -/
def specPolicyFindings : JValue → List JValue
  | .obj arp => specFindingsValue (jget arp "findings")
  | _ => []

/-- Specification-side description, following the spec's words: the findings
an assessment contributes — those of its reasoning-policy sub-object when it
contains one, none otherwise. -/
def specAssessmentFindings : JValue → List JValue
  | .obj kvs =>
      match jget kvs "automatedReasoningPolicy" with
      | some arp => specPolicyFindings arp
      | none => []
  | _ => []

/-- Specification-side description, following the spec's words: all findings
of all assessments that contain a reasoning-policy sub-object, flattened into
one sequence preserving assessment order then finding order. -/
def specDirectFindings (as : List JValue) : List JValue :=
  (as.map specAssessmentFindings).flatten

lemma parseFindings_append {xs ys : List JValue} {ps rs : List ParsedFinding}
    (hx : parseFindings xs = .ok ps) (hy : parseFindings ys = .ok rs) :
    parseFindings (xs ++ ys) = .ok (ps ++ rs) := by
  induction xs generalizing ps with
  | nil =>
    replace hx : Except.ok ([] : List ParsedFinding) = .ok ps := hx
    simp only [Except.ok.injEq] at hx
    rw [← hx]
    simpa using hy
  | cons f rest ih =>
    cases f with
    | obj kvs =>
      simp only [parseFindings] at hx
      obtain ⟨p, hp, h2⟩ := except_bind_ok_elim hx
      obtain ⟨qs, hqs, h3⟩ := except_bind_ok_elim h2
      replace h3 : Except.ok (p :: qs) = .ok ps := h3
      simp only [Except.ok.injEq] at h3
      rw [← h3]
      have htail := ih hqs
      simp [parseFindings, hp, htail, Bind.bind, Except.bind]
    | null => simp [parseFindings] at hx
    | bool b => simp [parseFindings] at hx
    | str s => simp [parseFindings] at hx
    | num n => simp [parseFindings] at hx
    | arr zs => simp [parseFindings] at hx

lemma processAssessment_specFindings {a : JValue} {ps : List ParsedFinding}
    (h : processAssessment a = .ok ps) :
    parseFindings (specAssessmentFindings a) = .ok ps := by
  cases a with
  | obj kvs =>
    simp only [processAssessment] at h
    simp only [specAssessmentFindings]
    cases harp : jget kvs "automatedReasoningPolicy" with
    | none =>
      rw [harp] at h
      replace h : Except.ok ([] : List ParsedFinding) = .ok ps := h
      simp only [Except.ok.injEq] at h
      rw [← h]
      rfl
    | some arp =>
      rw [harp] at h
      replace h : processPolicyValue arp = .ok ps := h
      show parseFindings (specPolicyFindings arp) = .ok ps
      cases arp with
      | obj arpKvs =>
        simp only [processPolicyValue] at h
        simp only [specPolicyFindings]
        cases hfv : jget arpKvs "findings" with
        | none =>
          rw [hfv] at h
          replace h : Except.ok ([] : List ParsedFinding) = .ok ps := h
          simp only [Except.ok.injEq] at h
          rw [← h]
          rfl
        | some fv =>
          rw [hfv] at h
          replace h : processFindingsValue fv = .ok ps := h
          show parseFindings (specFindingsValue (some fv)) = .ok ps
          cases fv with
          | arr fs => exact h
          | null => simp [processFindingsValue] at h
          | bool b => simp [processFindingsValue] at h
          | str s => simp [processFindingsValue] at h
          | num n => simp [processFindingsValue] at h
          | obj o => simp [processFindingsValue] at h
      | null => simp [processPolicyValue] at h
      | bool b => simp [processPolicyValue] at h
      | str s => simp [processPolicyValue] at h
      | num n => simp [processPolicyValue] at h
      | arr zs => simp [processPolicyValue] at h
  | null => simp [processAssessment] at h
  | bool b => simp [processAssessment] at h
  | str s => simp [processAssessment] at h
  | num n => simp [processAssessment] at h
  | arr zs => simp [processAssessment] at h

lemma processAssessments_specFindings : ∀ (as : List JValue) (l : List ParsedFinding),
    processAssessments as = .ok l → parseFindings (specDirectFindings as) = .ok l := by
  intro as
  induction as with
  | nil =>
    intro l h
    replace h : Except.ok ([] : List ParsedFinding) = .ok l := h
    simp only [Except.ok.injEq] at h
    rw [← h]
    rfl
  | cons a rest ih =>
    intro l h
    simp only [processAssessments] at h
    obtain ⟨ps, hps, h2⟩ := except_bind_ok_elim h
    obtain ⟨rs, hrs, h3⟩ := except_bind_ok_elim h2
    replace h3 : Except.ok (ps ++ rs) = .ok l := h3
    simp only [Except.ok.injEq] at h3
    rw [← h3]
    have hsplit : specDirectFindings (a :: rest) =
        specAssessmentFindings a ++ specDirectFindings rest := by
      simp [specDirectFindings]
    rw [hsplit]
    exact parseFindings_append (processAssessment_specFindings hps) (ih rs hrs)

lemma parseFindings_raw : ∀ (fs : List JValue) (l : List ParsedFinding),
    parseFindings fs = .ok l → fs = l.map (fun pf => JValue.obj pf.finding) := by
  intro fs
  induction fs with
  | nil =>
    intro l h
    replace h : Except.ok ([] : List ParsedFinding) = .ok l := h
    simp only [Except.ok.injEq] at h
    rw [← h]
    rfl
  | cons f rest ih =>
    intro l h
    cases f with
    | obj kvs =>
      simp only [parseFindings] at h
      obtain ⟨p, hp, h2⟩ := except_bind_ok_elim h
      obtain ⟨ps, hps, h3⟩ := except_bind_ok_elim h2
      replace h3 : Except.ok (p :: ps) = .ok l := h3
      simp only [Except.ok.injEq] at h3
      rw [← h3]
      obtain ⟨sup, con, -, -, hpf⟩ := parse_finding_ok_elim hp
      have hfind : p.finding = kvs := by rw [hpf]
      rw [List.map_cons, hfind, ← ih ps hps]
    | null => simp [parseFindings] at h
    | bool b => simp [parseFindings] at h
    | str s => simp [parseFindings] at h
    | num n => simp [parseFindings] at h
    | arr zs => simp [parseFindings] at h

/-- Claim C3 (amended): for every direct-shape response, the extracted
sequence is the in-order normalization of all findings of all assessments
that contain an `automatedReasoningPolicy` sub-object, flattened preserving
assessment order then finding order (assessments without the key contribute
nothing), and its raw findings are exactly that flattened sequence; in
particular two policy-bearing assessments with one and two findings yield the
three parsed findings in order.  A trace-shape response whose single finding
contains `translationAmbiguous` and none of the higher-priority keys yields
exactly one finding with result `AMBIGUOUS`. -/
theorem extract_ordering_and_trace_ambiguous :
    (∀ (resp : List (String × JValue)) (as : List JValue) (l : List ParsedFinding),
      jget resp "assessments" = some (.arr as) →
      extract_automated_reasoning_results resp = .ok l →
      parseFindings (specDirectFindings as) = .ok l ∧
      specDirectFindings as = l.map (fun pf => JValue.obj pf.finding)) ∧
    (∀ (f1 f2 f3 : List (String × JValue)) (p1 p2 p3 : ParsedFinding),
      parse_finding f1 = .ok p1 → parse_finding f2 = .ok p2 →
      parse_finding f3 = .ok p3 →
      extract_automated_reasoning_results
        [("assessments", JValue.arr
          [JValue.obj [("automatedReasoningPolicy",
            JValue.obj [("findings", JValue.arr [JValue.obj f1])])],
           JValue.obj [("automatedReasoningPolicy",
            JValue.obj [("findings",
              JValue.arr [JValue.obj f2, JValue.obj f3])])]])] =
        .ok [p1, p2, p3]) ∧
    (∀ (k : String) (f : List (String × JValue)) (p : ParsedFinding),
      jget f "satisfiable" = none → jget f "valid" = none →
      jget f "invalid" = none → (jget f "translationAmbiguous").isSome = true →
      parse_finding f = .ok p →
      extract_automated_reasoning_results
        [("trace", JValue.obj [("guardrail", JValue.obj [("outputAssessments",
          JValue.obj [(k, JValue.arr [JValue.obj [("automatedReasoningPolicy",
            JValue.obj [("findings", JValue.arr [JValue.obj f])])]])])])])] =
        .ok [p] ∧ p.result = some "AMBIGUOUS") := by
  refine ⟨?_, ?_, ?_⟩
  · intro resp as l ha hx
    rw [extract_of_assessments_some ha] at hx
    replace hx : processAssessments as = .ok l := hx
    have hflat := processAssessments_specFindings as l hx
    exact ⟨hflat, parseFindings_raw _ _ hflat⟩
  · intro f1 f2 f3 p1 p2 p3 h1 h2 h3
    have ha1 : processAssessment (JValue.obj [("automatedReasoningPolicy",
        JValue.obj [("findings", JValue.arr [JValue.obj f1])])]) = .ok [p1] := by
      show parseFindings [JValue.obj f1] = .ok [p1]
      simp [parseFindings, h1, Bind.bind, Except.bind]
    have ha2 : processAssessment (JValue.obj [("automatedReasoningPolicy",
        JValue.obj [("findings", JValue.arr [JValue.obj f2, JValue.obj f3])])]) =
        .ok [p2, p3] := by
      show parseFindings [JValue.obj f2, JValue.obj f3] = .ok [p2, p3]
      simp [parseFindings, h2, h3, Bind.bind, Except.bind]
    show processAssessments
        [JValue.obj [("automatedReasoningPolicy",
          JValue.obj [("findings", JValue.arr [JValue.obj f1])])],
         JValue.obj [("automatedReasoningPolicy",
          JValue.obj [("findings", JValue.arr [JValue.obj f2, JValue.obj f3])])]] =
      .ok [p1, p2, p3]
    simp [processAssessments, ha1, ha2, Bind.bind, Except.bind]
  · intro k f p hsat hval hinv hamb hp
    have hres : p.result = some "AMBIGUOUS" := by
      rw [parse_finding_result_eq hp]
      simp [classifyFinding, hasKey, hsat, hval, hinv, hamb]
    refine ⟨?_, hres⟩
    have ha : processAssessment (JValue.obj [("automatedReasoningPolicy",
        JValue.obj [("findings", JValue.arr [JValue.obj f])])]) = .ok [p] := by
      show parseFindings [JValue.obj f] = .ok [p]
      simp [parseFindings, hp, Bind.bind, Except.bind]
    show processOutputAssessments
        [(k, JValue.arr [JValue.obj [("automatedReasoningPolicy",
          JValue.obj [("findings", JValue.arr [JValue.obj f])])]])] = .ok [p]
    simp [processOutputAssessments, processAssessments, ha, Bind.bind, Except.bind]

/-- Witness for the amended C3 at concrete findings: for a direct-shape
response with a policy-less assessment between two policy-bearing ones, the
output's raw findings are the flattened findings in order; the two-assessment
example yields the three findings in order; and the trace shape yields one
AMBIGUOUS finding. -/
theorem extract_ordering_and_trace_ambiguous_witness :
    specDirectFindings
        [JValue.obj [("automatedReasoningPolicy",
          JValue.obj [("findings", JValue.arr
            [JValue.obj [("valid", JValue.null)]])])],
         JValue.obj [("other", JValue.null)],
         JValue.obj [("automatedReasoningPolicy",
          JValue.obj [("findings", JValue.arr
            [JValue.obj [("invalid", JValue.null)],
             JValue.obj [("satisfiable", JValue.null)]])])]] =
      List.map (fun pf => JValue.obj pf.finding)
        [(⟨some "VALID", [("valid", JValue.null)], []⟩ : ParsedFinding),
         ⟨some "INVALID", [("invalid", JValue.null)], []⟩,
         ⟨some "SATISFIABLE", [("satisfiable", JValue.null)], []⟩] ∧
    extract_automated_reasoning_results
        [("assessments", JValue.arr
          [JValue.obj [("automatedReasoningPolicy",
            JValue.obj [("findings", JValue.arr
              [JValue.obj [("valid", JValue.null)]])])],
           JValue.obj [("automatedReasoningPolicy",
            JValue.obj [("findings", JValue.arr
              [JValue.obj [("invalid", JValue.null)],
               JValue.obj [("satisfiable", JValue.null)]])])]])] =
      .ok [⟨some "VALID", [("valid", JValue.null)], []⟩,
           ⟨some "INVALID", [("invalid", JValue.null)], []⟩,
           ⟨some "SATISFIABLE", [("satisfiable", JValue.null)], []⟩] ∧
    (extract_automated_reasoning_results
        [("trace", JValue.obj [("guardrail", JValue.obj [("outputAssessments",
          JValue.obj [("k", JValue.arr [JValue.obj [("automatedReasoningPolicy",
            JValue.obj [("findings", JValue.arr
              [JValue.obj [("translationAmbiguous", JValue.null)]])])]])])])])] =
      .ok [⟨some "AMBIGUOUS", [("translationAmbiguous", JValue.null)], []⟩] ∧
     ParsedFinding.result
       ⟨some "AMBIGUOUS", [("translationAmbiguous", JValue.null)], []⟩ =
       some "AMBIGUOUS") :=
  ⟨(extract_ordering_and_trace_ambiguous.1
      [("assessments", JValue.arr
        [JValue.obj [("automatedReasoningPolicy",
          JValue.obj [("findings", JValue.arr
            [JValue.obj [("valid", JValue.null)]])])],
         JValue.obj [("other", JValue.null)],
         JValue.obj [("automatedReasoningPolicy",
          JValue.obj [("findings", JValue.arr
            [JValue.obj [("invalid", JValue.null)],
             JValue.obj [("satisfiable", JValue.null)]])])]])]
      [JValue.obj [("automatedReasoningPolicy",
          JValue.obj [("findings", JValue.arr
            [JValue.obj [("valid", JValue.null)]])])],
       JValue.obj [("other", JValue.null)],
       JValue.obj [("automatedReasoningPolicy",
          JValue.obj [("findings", JValue.arr
            [JValue.obj [("invalid", JValue.null)],
             JValue.obj [("satisfiable", JValue.null)]])])]]
      [⟨some "VALID", [("valid", JValue.null)], []⟩,
       ⟨some "INVALID", [("invalid", JValue.null)], []⟩,
       ⟨some "SATISFIABLE", [("satisfiable", JValue.null)], []⟩] rfl rfl).2,
   extract_ordering_and_trace_ambiguous.2.1
      [("valid", JValue.null)] [("invalid", JValue.null)]
      [("satisfiable", JValue.null)] _ _ _ rfl rfl rfl,
   extract_ordering_and_trace_ambiguous.2.2 "k"
      [("translationAmbiguous", JValue.null)] _ rfl rfl rfl rfl rfl⟩

/-! ### Claim C6 -/

/-- A rule-list value is acceptable to `_parse_finding`: absent or a list. -/
def optRuleListOk : Option JValue → Bool
  | none => true
  | some (.arr _) => true
  | some _ => false

/-- Well-formed finding payload: a dict whose `supportingRules` and
`contradictingRules`, when present, are lists. -/
def wfFinding : JValue → Bool
  | .obj kvs =>
      optRuleListOk (jget kvs "supportingRules") &&
      optRuleListOk (jget kvs "contradictingRules")
  | _ => false

/-- Well-formed `findings` value: absent or a list of well-formed findings. -/
def wfFindingsOpt : Option JValue → Bool
  | none => true
  | some (.arr fs) => fs.all wfFinding
  | some _ => false

/-- Well-formed `automatedReasoningPolicy` value: a dict whose `findings`
key, when present, is a list of well-formed findings. -/
def wfPolicyValue : JValue → Bool
  | .obj arp => wfFindingsOpt (jget arp "findings")
  | _ => false

/-- Well-formed optional `automatedReasoningPolicy` value. -/
def wfPolicyOpt : Option JValue → Bool
  | none => true
  | some arp => wfPolicyValue arp

/-- Well-formed assessment: a dict whose `automatedReasoningPolicy` key, when
present, is well formed. -/
def wfAssessment : JValue → Bool
  | .obj kvs => wfPolicyOpt (jget kvs "automatedReasoningPolicy")
  | _ => false

/-- Well-formed assessments value: a list of well-formed assessments. -/
def wfAssessmentsValue : JValue → Bool
  | .arr as => as.all wfAssessment
  | _ => false

/-- Well-formed `outputAssessments` value: a dict of well-formed assessments
lists. -/
def wfOutputAssessmentsValue : JValue → Bool
  | .obj oa => oa.all (fun kv => wfAssessmentsValue kv.2)
  | _ => false

/-- Well-formed optional `outputAssessments` value. -/
def wfOutputAssessmentsOpt : Option JValue → Bool
  | none => true
  | some v => wfOutputAssessmentsValue v

/-- Well-formed `guardrail` value: a dict with a well-formed optional
`outputAssessments` key. -/
def wfGuardrailValue : JValue → Bool
  | .obj g => wfOutputAssessmentsOpt (jget g "outputAssessments")
  | _ => false

/-- Well-formed optional `guardrail` value. -/
def wfGuardrailOpt : Option JValue → Bool
  | none => true
  | some g => wfGuardrailValue g

/-- Well-formed trace value: a dict with a well-formed optional `guardrail`
key. -/
def wfTraceValue : JValue → Bool
  | .obj tr => wfGuardrailOpt (jget tr "guardrail")
  | _ => false

/-- Well-formedness of the branch taken when `assessments` is absent. -/
def wfNoAssessments (resp : List (String × JValue)) : Bool :=
  match jget resp "trace" with
  | none => true
  | some t => wfTraceValue t

/-- Well-formed response: every optional key that is present carries a value
of the type the code expects on the branch it takes. -/
def wfResponse (resp : List (String × JValue)) : Bool :=
  match jget resp "assessments" with
  | some v => wfAssessmentsValue v
  | none => wfNoAssessments resp

/-- The guardrail dict carries an `outputAssessments` key. -/
def guardrailHasOA : JValue → Bool
  | .obj g => (jget g "outputAssessments").isSome
  | _ => false

/-- The trace dict carries a `guardrail.outputAssessments` structure. -/
def traceHasGuardrailOA : JValue → Bool
  | .obj tr =>
      match jget tr "guardrail" with
      | some g => guardrailHasOA g
      | none => false
  | _ => false

/-- The `trace.guardrail.outputAssessments` structure is present in the
response. -/
def traceStructurePresent (resp : List (String × JValue)) : Bool :=
  match jget resp "trace" with
  | some t => traceHasGuardrailOA t
  | none => false

lemma getRuleList_ok_of_optOk {f : List (String × JValue)} {k : String}
    (h : optRuleListOk (jget f k) = true) : ∃ xs, getRuleList f k = .ok xs := by
  unfold getRuleList
  cases hj : jget f k with
  | none => exact ⟨[], rfl⟩
  | some v =>
    rw [hj] at h
    cases v <;> simp [optRuleListOk] at h ⊢

lemma parse_finding_ok_of_wf {kvs : List (String × JValue)}
    (h : wfFinding (JValue.obj kvs) = true) : ∃ pf, parse_finding kvs = .ok pf := by
  simp only [wfFinding, Bool.and_eq_true] at h
  obtain ⟨xs, hs⟩ := getRuleList_ok_of_optOk h.1
  obtain ⟨ys, hc⟩ := getRuleList_ok_of_optOk h.2
  exact ⟨_, parse_finding_ok_of hs hc⟩

lemma parseFindings_ok_of_wf : ∀ fs : List JValue, fs.all wfFinding = true →
    ∃ l, parseFindings fs = .ok l := by
  intro fs
  induction fs with
  | nil => exact fun _ => ⟨[], rfl⟩
  | cons f rest ih =>
    intro h
    rw [List.all_cons, Bool.and_eq_true] at h
    obtain ⟨l, hl⟩ := ih h.2
    have hf := h.1
    cases f with
    | obj kvs =>
      obtain ⟨pf, hpf⟩ := parse_finding_ok_of_wf hf
      exact ⟨pf :: l, by simp [parseFindings, hpf, hl, Bind.bind, Except.bind]⟩
    | null => simp [wfFinding] at hf
    | bool b => simp [wfFinding] at hf
    | str s => simp [wfFinding] at hf
    | num n => simp [wfFinding] at hf
    | arr xs => simp [wfFinding] at hf

lemma processFindingsValue_ok_of_wf {fv : JValue}
    (h : wfFindingsOpt (some fv) = true) : ∃ l, processFindingsValue fv = .ok l := by
  cases fv with
  | arr fs => exact parseFindings_ok_of_wf fs (by simpa [wfFindingsOpt] using h)
  | null => simp [wfFindingsOpt] at h
  | bool b => simp [wfFindingsOpt] at h
  | str s => simp [wfFindingsOpt] at h
  | num n => simp [wfFindingsOpt] at h
  | obj o => simp [wfFindingsOpt] at h

lemma processPolicyValue_ok_of_wf {arp : JValue}
    (h : wfPolicyValue arp = true) : ∃ l, processPolicyValue arp = .ok l := by
  cases arp with
  | obj arpKvs =>
    simp only [processPolicyValue]
    simp only [wfPolicyValue] at h
    cases hfv : jget arpKvs "findings" with
    | none => exact ⟨[], rfl⟩
    | some fv =>
      rw [hfv] at h
      exact processFindingsValue_ok_of_wf h
  | null => simp [wfPolicyValue] at h
  | bool b => simp [wfPolicyValue] at h
  | str s => simp [wfPolicyValue] at h
  | num n => simp [wfPolicyValue] at h
  | arr xs => simp [wfPolicyValue] at h

lemma processAssessment_ok_of_wf {a : JValue} (h : wfAssessment a = true) :
    ∃ l, processAssessment a = .ok l := by
  cases a with
  | obj kvs =>
    simp only [processAssessment]
    simp only [wfAssessment] at h
    cases harp : jget kvs "automatedReasoningPolicy" with
    | none => exact ⟨[], rfl⟩
    | some arp =>
      rw [harp] at h
      exact processPolicyValue_ok_of_wf (by simpa [wfPolicyOpt] using h)
  | null => simp [wfAssessment] at h
  | bool b => simp [wfAssessment] at h
  | str s => simp [wfAssessment] at h
  | num n => simp [wfAssessment] at h
  | arr xs => simp [wfAssessment] at h

lemma processAssessments_ok_of_wf : ∀ as : List JValue,
    as.all wfAssessment = true → ∃ l, processAssessments as = .ok l := by
  intro as
  induction as with
  | nil => exact fun _ => ⟨[], rfl⟩
  | cons a rest ih =>
    intro h
    rw [List.all_cons, Bool.and_eq_true] at h
    obtain ⟨ps, hps⟩ := processAssessment_ok_of_wf h.1
    obtain ⟨rs, hrs⟩ := ih h.2
    exact ⟨ps ++ rs, by simp [processAssessments, hps, hrs, Bind.bind, Except.bind]⟩

lemma processAssessmentsValue_ok_of_wf {v : JValue}
    (h : wfAssessmentsValue v = true) : ∃ l, processAssessmentsValue v = .ok l := by
  cases v with
  | arr as => exact processAssessments_ok_of_wf as (by simpa [wfAssessmentsValue] using h)
  | null => simp [wfAssessmentsValue] at h
  | bool b => simp [wfAssessmentsValue] at h
  | str s => simp [wfAssessmentsValue] at h
  | num n => simp [wfAssessmentsValue] at h
  | obj o => simp [wfAssessmentsValue] at h

lemma processOutputAssessments_ok_of_wf : ∀ oa : List (String × JValue),
    oa.all (fun kv => wfAssessmentsValue kv.2) = true →
    ∃ l, processOutputAssessments oa = .ok l := by
  intro oa
  induction oa with
  | nil => exact fun _ => ⟨[], rfl⟩
  | cons kv rest ih =>
    intro h
    rw [List.all_cons, Bool.and_eq_true] at h
    obtain ⟨rs, hrs⟩ := ih h.2
    obtain ⟨k, v⟩ := kv
    have hv := h.1
    cases v with
    | arr as =>
      obtain ⟨ps, hps⟩ := processAssessments_ok_of_wf as
        (by simpa [wfAssessmentsValue] using hv)
      exact ⟨ps ++ rs,
        by simp [processOutputAssessments, hps, hrs, Bind.bind, Except.bind]⟩
    | null => simp [wfAssessmentsValue] at hv
    | bool b => simp [wfAssessmentsValue] at hv
    | str s => simp [wfAssessmentsValue] at hv
    | num n => simp [wfAssessmentsValue] at hv
    | obj o => simp [wfAssessmentsValue] at hv

lemma processGuardrailValue_ok_of_wf {g : JValue}
    (h : wfGuardrailValue g = true) : ∃ l, processGuardrailValue g = .ok l := by
  cases g with
  | obj gKvs =>
    simp only [processGuardrailValue]
    simp only [wfGuardrailValue] at h
    cases ho : jget gKvs "outputAssessments" with
    | none => exact ⟨[], rfl⟩
    | some oa =>
      rw [ho] at h
      simp only [wfOutputAssessmentsOpt] at h
      cases oa with
      | obj oaKvs =>
        exact processOutputAssessments_ok_of_wf oaKvs
          (by simpa [wfOutputAssessmentsValue] using h)
      | null => simp [wfOutputAssessmentsValue] at h
      | bool b => simp [wfOutputAssessmentsValue] at h
      | str s => simp [wfOutputAssessmentsValue] at h
      | num n => simp [wfOutputAssessmentsValue] at h
      | arr xs => simp [wfOutputAssessmentsValue] at h
  | null => simp [wfGuardrailValue] at h
  | bool b => simp [wfGuardrailValue] at h
  | str s => simp [wfGuardrailValue] at h
  | num n => simp [wfGuardrailValue] at h
  | arr xs => simp [wfGuardrailValue] at h

lemma processTraceValue_ok_of_wf {t : JValue}
    (h : wfTraceValue t = true) : ∃ l, processTraceValue t = .ok l := by
  cases t with
  | obj tr =>
    simp only [processTraceValue]
    simp only [wfTraceValue] at h
    cases hg : jget tr "guardrail" with
    | none => exact ⟨[], rfl⟩
    | some g =>
      rw [hg] at h
      exact processGuardrailValue_ok_of_wf (by simpa [wfGuardrailOpt] using h)
  | null => simp [wfTraceValue] at h
  | bool b => simp [wfTraceValue] at h
  | str s => simp [wfTraceValue] at h
  | num n => simp [wfTraceValue] at h
  | arr xs => simp [wfTraceValue] at h

lemma extractTrace_ok_of_wf {resp : List (String × JValue)}
    (h : wfNoAssessments resp = true) : ∃ l, extractTrace resp = .ok l := by
  unfold extractTrace
  unfold wfNoAssessments at h
  cases ht : jget resp "trace" with
  | none => exact ⟨[], rfl⟩
  | some t =>
    rw [ht] at h
    exact processTraceValue_ok_of_wf h

/-- Claim C6: on every well-formed response (each optional key absent or of
the expected type) extraction returns normally without raising, and when
neither the `assessments` key nor the `trace.guardrail.outputAssessments`
structure is present it returns the empty sequence. -/
theorem extract_no_raise_on_wf (resp : List (String × JValue))
    (h : wfResponse resp = true) :
    (∃ l, extract_automated_reasoning_results resp = .ok l) ∧
    (jget resp "assessments" = none → traceStructurePresent resp = false →
      extract_automated_reasoning_results resp = .ok []) := by
  constructor
  · unfold wfResponse at h
    cases ha : jget resp "assessments" with
    | some v =>
      rw [ha] at h
      rw [extract_of_assessments_some ha]
      exact processAssessmentsValue_ok_of_wf h
    | none =>
      rw [ha] at h
      rw [extract_of_assessments_none ha]
      exact extractTrace_ok_of_wf h
  · intro ha hpres
    rw [wfResponse, ha] at h
    rw [extract_of_assessments_none ha]
    unfold wfNoAssessments at h
    unfold traceStructurePresent at hpres
    unfold extractTrace
    cases ht : jget resp "trace" with
    | none => rfl
    | some t =>
      rw [ht] at h hpres
      replace h : wfTraceValue t = true := h
      replace hpres : traceHasGuardrailOA t = false := hpres
      show processTraceValue t = .ok []
      cases t with
      | obj tr =>
        simp only [processTraceValue]
        simp only [wfTraceValue] at h
        simp only [traceHasGuardrailOA] at hpres
        cases hg : jget tr "guardrail" with
        | none => rfl
        | some g =>
          rw [hg] at h hpres
          replace h : wfGuardrailValue g = true := h
          replace hpres : guardrailHasOA g = false := hpres
          show processGuardrailValue g = .ok []
          cases g with
          | obj gKvs =>
            simp only [processGuardrailValue]
            simp only [guardrailHasOA] at hpres
            cases ho : jget gKvs "outputAssessments" with
            | none => rfl
            | some oa => rw [ho] at hpres; simp at hpres
          | null => simp [wfGuardrailValue] at h
          | bool b => simp [wfGuardrailValue] at h
          | str s => simp [wfGuardrailValue] at h
          | num n => simp [wfGuardrailValue] at h
          | arr xs => simp [wfGuardrailValue] at h
      | null => simp [wfTraceValue] at h
      | bool b => simp [wfTraceValue] at h
      | str s => simp [wfTraceValue] at h
      | num n => simp [wfTraceValue] at h
      | arr xs => simp [wfTraceValue] at h

/-- Witness for C6: the empty response is well formed, lacks both shapes, and
extracts to the empty sequence. -/
theorem extract_no_raise_on_wf_witness :
    wfResponse [] = true ∧ extract_automated_reasoning_results [] = .ok [] :=
  ⟨rfl, (extract_no_raise_on_wf [] rfl).2 rfl rfl⟩

/-! ### Claim C10 -/

/-- The number of findings `.get("findings", [])` exposes: the length of the
list when present, zero when absent. -/
def countFindingsOpt : Option JValue → Nat
  | some (.arr fs) => fs.length
  | _ => 0

/-- Findings contributed by an `automatedReasoningPolicy` value. -/
def countPolicyValue : JValue → Nat
  | .obj arp => countFindingsOpt (jget arp "findings")
  | _ => 0

/-- Findings contributed by one assessment: zero unless it carries the
`automatedReasoningPolicy` key. -/
def countAssessment : JValue → Nat
  | .obj kvs =>
      match jget kvs "automatedReasoningPolicy" with
      | some arp => countPolicyValue arp
      | none => 0
  | _ => 0

/-- Findings contributed by an assessments list. -/
def countAssessmentsValue : JValue → Nat
  | .arr as => (as.map countAssessment).sum
  | _ => 0

lemma parseFindings_length : ∀ (fs : List JValue) (l : List ParsedFinding),
    parseFindings fs = .ok l → l.length = fs.length := by
  intro fs
  induction fs with
  | nil =>
    intro l h
    replace h : Except.ok ([] : List ParsedFinding) = .ok l := h
    simp only [Except.ok.injEq] at h
    rw [← h]
    rfl
  | cons f rest ih =>
    intro l h
    cases f with
    | obj kvs =>
      simp only [parseFindings] at h
      obtain ⟨p, -, h2⟩ := except_bind_ok_elim h
      obtain ⟨ps, hps, h3⟩ := except_bind_ok_elim h2
      replace h3 : Except.ok (p :: ps) = .ok l := h3
      simp only [Except.ok.injEq] at h3
      rw [← h3]
      simp [ih ps hps]
    | null => simp [parseFindings] at h
    | bool b => simp [parseFindings] at h
    | str s => simp [parseFindings] at h
    | num n => simp [parseFindings] at h
    | arr xs => simp [parseFindings] at h

lemma processAssessment_length {a : JValue} {l : List ParsedFinding}
    (h : processAssessment a = .ok l) : l.length = countAssessment a := by
  cases a with
  | obj kvs =>
    simp only [processAssessment] at h
    simp only [countAssessment]
    cases harp : jget kvs "automatedReasoningPolicy" with
    | none =>
      rw [harp] at h
      replace h : Except.ok ([] : List ParsedFinding) = .ok l := h
      simp only [Except.ok.injEq] at h
      rw [← h]
      rfl
    | some arp =>
      rw [harp] at h
      replace h : processPolicyValue arp = .ok l := h
      cases arp with
      | obj arpKvs =>
        simp only [processPolicyValue] at h
        simp only [countPolicyValue]
        cases hfv : jget arpKvs "findings" with
        | none =>
          rw [hfv] at h
          replace h : Except.ok ([] : List ParsedFinding) = .ok l := h
          simp only [Except.ok.injEq] at h
          rw [← h]
          rfl
        | some fv =>
          rw [hfv] at h
          replace h : processFindingsValue fv = .ok l := h
          cases fv with
          | arr fs => exact parseFindings_length fs l h
          | null => simp [processFindingsValue] at h
          | bool b => simp [processFindingsValue] at h
          | str s => simp [processFindingsValue] at h
          | num n => simp [processFindingsValue] at h
          | obj o => simp [processFindingsValue] at h
      | null => simp [processPolicyValue] at h
      | bool b => simp [processPolicyValue] at h
      | str s => simp [processPolicyValue] at h
      | num n => simp [processPolicyValue] at h
      | arr xs => simp [processPolicyValue] at h
  | null => simp [processAssessment] at h
  | bool b => simp [processAssessment] at h
  | str s => simp [processAssessment] at h
  | num n => simp [processAssessment] at h
  | arr xs => simp [processAssessment] at h

lemma processAssessments_length : ∀ (as : List JValue) (l : List ParsedFinding),
    processAssessments as = .ok l → l.length = (as.map countAssessment).sum := by
  intro as
  induction as with
  | nil =>
    intro l h
    replace h : Except.ok ([] : List ParsedFinding) = .ok l := h
    simp only [Except.ok.injEq] at h
    rw [← h]
    rfl
  | cons a rest ih =>
    intro l h
    simp only [processAssessments] at h
    obtain ⟨ps, hps, h2⟩ := except_bind_ok_elim h
    obtain ⟨rs, hrs, h3⟩ := except_bind_ok_elim h2
    replace h3 : Except.ok (ps ++ rs) = .ok l := h3
    simp only [Except.ok.injEq] at h3
    rw [← h3]
    simp [List.length_append, processAssessment_length hps, ih rs hrs]

lemma processOutputAssessments_length :
    ∀ (oa : List (String × JValue)) (l : List ParsedFinding),
    processOutputAssessments oa = .ok l →
    l.length = (oa.map (fun kv => countAssessmentsValue kv.2)).sum := by
  intro oa
  induction oa with
  | nil =>
    intro l h
    replace h : Except.ok ([] : List ParsedFinding) = .ok l := h
    simp only [Except.ok.injEq] at h
    rw [← h]
    rfl
  | cons kv rest ih =>
    intro l h
    obtain ⟨k, v⟩ := kv
    cases v with
    | arr as =>
      simp only [processOutputAssessments] at h
      obtain ⟨ps, hps, h2⟩ := except_bind_ok_elim h
      obtain ⟨rs, hrs, h3⟩ := except_bind_ok_elim h2
      replace h3 : Except.ok (ps ++ rs) = .ok l := h3
      simp only [Except.ok.injEq] at h3
      rw [← h3]
      simp [List.length_append, processAssessments_length as ps hps, ih rs hrs,
        countAssessmentsValue]
    | null => simp [processOutputAssessments] at h
    | bool b => simp [processOutputAssessments] at h
    | str s => simp [processOutputAssessments] at h
    | num n => simp [processOutputAssessments] at h
    | obj o => simp [processOutputAssessments] at h

/-- Claim C10: the length of the extracted sequence equals, for the direct
shape, the sum over assessments carrying `automatedReasoningPolicy` of their
findings-list lengths (absent lists contributing zero), and for the trace
shape the same sum over every assessments list of the `outputAssessments`
mapping — no finding is dropped or duplicated. -/
theorem extract_length_conservation (resp : List (String × JValue)) (l : List ParsedFinding) :
    (∀ as : List JValue, jget resp "assessments" = some (.arr as) →
      extract_automated_reasoning_results resp = .ok l →
      l.length = (as.map countAssessment).sum) ∧
    (∀ (tr g oa : List (String × JValue)), jget resp "assessments" = none →
      jget resp "trace" = some (.obj tr) →
      jget tr "guardrail" = some (.obj g) →
      jget g "outputAssessments" = some (.obj oa) →
      extract_automated_reasoning_results resp = .ok l →
      l.length = (oa.map (fun kv => countAssessmentsValue kv.2)).sum) := by
  constructor
  · intro as ha hx
    rw [extract_of_assessments_some ha] at hx
    exact processAssessments_length as l hx
  · intro tr g oa ha ht hg ho hx
    rw [extract_of_assessments_none ha] at hx
    unfold extractTrace at hx
    rw [ht] at hx
    replace hx : processTraceValue (JValue.obj tr) = .ok l := hx
    simp only [processTraceValue] at hx
    rw [hg] at hx
    replace hx : processGuardrailValue (JValue.obj g) = .ok l := hx
    simp only [processGuardrailValue] at hx
    rw [ho] at hx
    replace hx : processOutputAssessments oa = .ok l := hx
    exact processOutputAssessments_length oa l hx

/-- Witness for C10: a direct-shape response whose two policy-bearing
assessments hold one and two findings extracts to a sequence of length
1 + 2 = 3. -/
theorem extract_length_conservation_witness :
    List.length
      [(⟨some "VALID", [("valid", JValue.null)], []⟩ : ParsedFinding),
       ⟨some "INVALID", [("invalid", JValue.null)], []⟩,
       ⟨some "SATISFIABLE", [("satisfiable", JValue.null)], []⟩] =
    (List.map countAssessment
      [JValue.obj [("automatedReasoningPolicy",
        JValue.obj [("findings", JValue.arr
          [JValue.obj [("valid", JValue.null)]])])],
       JValue.obj [("automatedReasoningPolicy",
        JValue.obj [("findings", JValue.arr
          [JValue.obj [("invalid", JValue.null)],
           JValue.obj [("satisfiable", JValue.null)]])])]]).sum :=
  (extract_length_conservation
    [("assessments", JValue.arr
      [JValue.obj [("automatedReasoningPolicy",
        JValue.obj [("findings", JValue.arr
          [JValue.obj [("valid", JValue.null)]])])],
       JValue.obj [("automatedReasoningPolicy",
        JValue.obj [("findings", JValue.arr
          [JValue.obj [("invalid", JValue.null)],
           JValue.obj [("satisfiable", JValue.null)]])])]])]
    [⟨some "VALID", [("valid", JValue.null)], []⟩,
     ⟨some "INVALID", [("invalid", JValue.null)], []⟩,
     ⟨some "SATISFIABLE", [("satisfiable", JValue.null)], []⟩]).1
    [JValue.obj [("automatedReasoningPolicy",
        JValue.obj [("findings", JValue.arr
          [JValue.obj [("valid", JValue.null)]])])],
     JValue.obj [("automatedReasoningPolicy",
        JValue.obj [("findings", JValue.arr
          [JValue.obj [("invalid", JValue.null)],
           JValue.obj [("satisfiable", JValue.null)]])])]] rfl rfl
